import Mathlib

/-!
Verification development for the AIStudioToAPI request engine.

Shallow embedding of the parts of the repository that the checked
properties concern:

* `MessageQueue` (src/core, part_003 lines 260-315): an operational model
  of the single-producer/single-consumer queue as a state machine over
  explicit operation traces.
* `FormatConverter` (part_003): `ensureThoughtSignature`,
  `translateOpenAIToGoogle` (the `contents` construction),
  `translateGoogleToOpenAIStream`, `convertGoogleToOpenAINonStream`,
  `_parseUsage`, `_mapFinishReason`.
* Client Agent (`scripts/client/build.js`): `_sanitizeHeaders`,
  `_constructUrl`, and the body-forwarding loop of `_processProxyRequest`.

JavaScript objects are modelled by records with `Option` fields for
optional keys; JavaScript truthiness is modelled explicitly where the code
relies on it. Nondeterministic or environment-dependent operations
(`JSON.parse` of arbitrary strings, `axios.get` image downloads, MIME
lookup) are threaded as explicit function parameters; randomly generated
response identifiers and wall-clock timestamps are omitted from the
modelled output records, as no checked property mentions them.
-/

namespace AIStudioToAPI

/-! ## A small model of JavaScript values

Used where the source manipulates untyped JSON data (message contents,
function-call arguments, prompt feedback). -/

inductive JVal where
  | undefined : JVal
  | null : JVal
  | bool : Bool → JVal
  | num : Int → JVal
  | str : String → JVal
  | arr : List JVal → JVal
  | obj : List (String × JVal) → JVal
deriving Repr, BEq, Inhabited

/-- Truthiness of a JavaScript value: `undefined`, `null`, `false`, `0` and
the empty string are falsy; arrays and objects are always truthy. -/
def JVal.truthy : JVal → Bool
  | .undefined => false
  | .null => false
  | .bool b => b
  | .num n => n != 0
  | .str s => s ≠ ""
  | .arr _ => true
  | .obj _ => true

/-- Property lookup `v[k]` on a JavaScript value: the first binding wins for
objects, anything else yields `undefined`. -/
def JVal.get : JVal → String → JVal
  | .obj fs, k =>
    match fs.find? (fun f => f.1 == k) with
    | some f => f.2
    | none => .undefined
  | _, _ => .undefined

/-- String coercion of a JavaScript value, as performed by template
interpolation: arrays join their elements with a comma, objects print the
generic object tag. -/
def JVal.toStr : JVal → String
  | .undefined => "undefined"
  | .null => "null"
  | .bool b => if b then "true" else "false"
  | .num n => toString n
  | .str s => s
  | .arr xs => String.intercalate "," (xs.attach.map (fun x => JVal.toStr x.1))
  | .obj _ => "[object Object]"
decreasing_by
  simp only [JVal.arr.sizeOf_spec]
  have h := List.sizeOf_lt_of_mem x.2
  omega

/-- Truthiness of an optional string field of a JavaScript object: the field
is falsy when absent or when it holds the empty string. -/
def truthyStr : Option String → Bool
  | some s => s ≠ ""
  | none => false

/-- Test whether a character list starts with a pattern. -/
def listStartsWith : List Char → List Char → Bool
  | _, [] => true
  | [], _ :: _ => false
  | c :: cs, p :: ps => c = p && listStartsWith cs ps

/-- Split of a character list around the first occurrence of a nonempty
pattern: `some (before, after)` when the pattern occurs. -/
def firstSplit (pat : List Char) : List Char → Option (List Char × List Char)
  | [] => none
  | c :: rest =>
    if listStartsWith (c :: rest) pat then some ([], (c :: rest).drop pat.length)
    else
      match firstSplit pat rest with
      | some (pre, post) => some (c :: pre, post)
      | none => none

/-- Model of `String.prototype.toUpperCase` on basic latin letters. -/
def jsToUpper (s : String) : String := ⟨s.data.map Char.toUpper⟩

/-- Model of `String.prototype.toLowerCase` on basic latin letters. -/
def jsToLower (s : String) : String := ⟨s.data.map Char.toLower⟩

/-! ## Message Queue (src/core/MessageQueue.js, part_003 lines 260-315)

The queue is modelled as a state machine. A state carries the buffered
messages, the identities of registered dequeue waiters in FIFO order, and
the closed flag. Each primitive of the class is one operation of the
machine; a step returns the successor state together with the list of
observable events it produced. Waiter identities stand for the resolver
objects of the source: a fresh resolver is allocated per `dequeue` call, so
a trace never registers the same identity twice (theorems carry that
freshness side condition explicitly). -/

structure QState (M : Type) where
  messages : List M
  waitingResolvers : List Nat
  closed : Bool
deriving Repr, DecidableEq

/-- Initial state of a freshly constructed queue. -/
def QState.init (M : Type) : QState M := ⟨[], [], false⟩

inductive QOp (M : Type) where
  | enqueue : M → QOp M
  | dequeue : Nat → QOp M
  | timeout : Nat → QOp M
  | close : QOp M
deriving Repr, DecidableEq

inductive QEvt (M : Type) where
  /-- an enqueued message is handed directly to the given waiter. -/
  | delivered : Nat → M → QEvt M
  /-- an enqueued message is appended to the buffer. -/
  | buffered : M → QEvt M
  /-- a dequeue call resolves immediately with a buffered message. -/
  | popped : Nat → M → QEvt M
  /-- a dequeue call registers a fresh waiter. -/
  | registered : Nat → QEvt M
  /-- a dequeue call on a closed queue throws the close-kind error. -/
  | closedErr : Nat → QEvt M
  /-- an enqueue on a closed queue silently drops the message. -/
  | dropped : M → QEvt M
  /-- a waiter is removed and rejected by its timeout. -/
  | timedOut : Nat → QEvt M
  /-- a waiter is rejected by `close`. -/
  | rejected : Nat → QEvt M
  /-- a timeout fires for a waiter that is no longer registered. -/
  | skipped : Nat → QEvt M
deriving Repr, DecidableEq

/-- One step of the queue state machine; a direct transcription of
`enqueue`, `dequeue`, the timeout callback, and `close`. -/
def qstep {M : Type} (s : QState M) : QOp M → QState M × List (QEvt M)
  | .enqueue m =>
    if s.closed then (s, [.dropped m])
    else
      match s.waitingResolvers with
      | w :: rest => ({ s with waitingResolvers := rest }, [.delivered w m])
      | [] => ({ s with messages := s.messages ++ [m] }, [.buffered m])
  | .dequeue w =>
    if s.closed then (s, [.closedErr w])
    else
      match s.messages with
      | m :: rest => ({ s with messages := rest }, [.popped w m])
      | [] => ({ s with waitingResolvers := s.waitingResolvers ++ [w] }, [.registered w])
  | .timeout w =>
    if w ∈ s.waitingResolvers then
      ({ s with waitingResolvers := s.waitingResolvers.erase w }, [.timedOut w])
    else (s, [.skipped w])
  | .close =>
    (⟨[], [], true⟩, s.waitingResolvers.map .rejected)

/-- Run of the queue state machine over a trace of operations, accumulating
the produced events in order. -/
def qrun {M : Type} (s : QState M) : List (QOp M) → QState M × List (QEvt M)
  | [] => (s, [])
  | op :: ops =>
    let (s₁, evts) := qstep s op
    let (s₂, rest) := qrun s₁ ops
    (s₂, evts ++ rest)

/-! ## Format Converter: shared part shape

A Gemini `parts` element is an open JavaScript object; the fields the code
reads are modelled as optional components of one record. -/

/-- Placeholder signature for Gemini 3 functionCall validation
(`FormatConverter.DUMMY_THOUGHT_SIGNATURE`). -/
def DUMMY_THOUGHT_SIGNATURE : String := "context_engineering_is_the_way_to_go"

/-- One element of a Gemini `parts` array. `inlineData` carries
`(mimeType, data)`; `functionCall` and `functionResponse` carry
`(name, args)` respectively `(name, response)`. -/
structure GPart where
  thought : Bool := false
  text : Option String := none
  inlineData : Option (String × String) := none
  functionCall : Option (String × JVal) := none
  functionResponse : Option (String × JVal) := none
  thoughtSignature : Option String := none
deriving Repr, BEq

/-- One element of a native Gemini `contents` array; `parts` is `none` when
the field is absent or not an array. -/
structure NContent where
  role : Option String := none
  parts : Option (List GPart) := none
deriving Repr, BEq

/-- Native Gemini request body (only the field `ensureThoughtSignature`
reads); `contents` is `none` when absent or not an array. -/
structure GeminiBody where
  contents : Option (List NContent) := none
deriving Repr, BEq

/-- Inner loop of `ensureThoughtSignature` over the parts of one contents
entry. The boolean accumulator is the `signatureAdded` flag: a dummy
signature is attached only when a part has a `functionCall`, its
`thoughtSignature` is falsy, and no signature was added yet in this entry. -/
def ensurePartsSig : Bool → List GPart → List GPart
  | _, [] => []
  | added, p :: rest =>
    if p.functionCall.isSome && !truthyStr p.thoughtSignature && !added then
      { p with thoughtSignature := some DUMMY_THOUGHT_SIGNATURE } :: ensurePartsSig true rest
    else
      p :: ensurePartsSig added rest

/-- `FormatConverter.ensureThoughtSignature` (part_003 lines 347-375):
walks every contents entry and runs the signature loop with a fresh
`signatureAdded` flag per entry; bodies without a contents array and
entries without a parts array are left untouched. -/
def ensureThoughtSignature (b : GeminiBody) : GeminiBody :=
  match b.contents with
  | none => b
  | some cs =>
    { b with
      contents := some (cs.map (fun c =>
        match c.parts with
        | none => c
        | some ps => { c with parts := some (ensurePartsSig false ps) })) }

/-- Spec-side reference definition for the amended claim C6, written from
the amended wording: the first `functionCall` part of the list that lacks a
(truthy) `thoughtSignature` receives the placeholder; every other part is
left unchanged. -/
def signFirstUnsigned : List GPart → List GPart
  | [] => []
  | p :: rest =>
    if p.functionCall.isSome && !truthyStr p.thoughtSignature then
      { p with thoughtSignature := some DUMMY_THOUGHT_SIGNATURE } :: rest
    else p :: signFirstUnsigned rest

/-! ## Format Converter: OpenAI → Google request translation

`translateOpenAIToGoogle` (part_003 lines 439-859). The embedding covers
the construction of `contents` and `systemInstruction`; the generation
config, tool-schema, tool-choice and safety-settings blocks of the source
function do not touch `contents` and are outside every checked property.
`JSON.parse`, the axios image download and the MIME lookup are supplied by
a `JsEnv` record of pure oracles. -/

/-- Environment of external operations used by the converter: `parseJson`
models `JSON.parse` (`none` = throws), `httpGetImage` models the axios GET
of an image URL (`none` = failure, otherwise the optional `content-type`
header and the base64-encoded body), `mimeLookup` models
`mime.lookup(url)` (`none` = `false`). -/
structure JsEnv where
  parseJson : String → Option JVal
  httpGetImage : String → Option (Option String × String)
  mimeLookup : String → Option String

structure OAIFn where
  name : String
  arguments : JVal := .undefined
deriving Repr, BEq

/-- One element of an OpenAI `tool_calls` array. -/
structure OAIToolCall where
  type : String := ""
  function : Option OAIFn := none
deriving Repr, BEq

/-- One OpenAI chat message. `tool_calls` is `some` exactly when the field
is present and is an array; `name` is the optional tool name field. -/
structure OAIMsg where
  role : String
  content : JVal := .undefined
  tool_calls : Option (List OAIToolCall) := none
  name : Option String := none
deriving Repr, BEq

/-- One element of the produced Gemini `contents` array. -/
structure GContent where
  role : String
  parts : List GPart
deriving Repr, BEq

/-- Match of the regular expression
`^data:(image\/.*?);base64,(.*)$` against a candidate data URL: the lazy
group takes the MIME type up to the first `;base64,` marker. -/
def matchDataImageUrl (s : String) : Option (String × String) :=
  if listStartsWith s.data ("data:image/".data) then
    match firstSplit (";base64,".data) (s.data.drop 5) with
    | some (mimePart, rest) => some (⟨mimePart⟩, ⟨rest⟩)
    | none => none
  else none

/-- Match of the regular expression `^https?:\/\//`. -/
def jsHttpUrl (s : String) : Bool :=
  listStartsWith s.data ("http://".data) || listStartsWith s.data ("https://".data)

/-- Translation of one element of an OpenAI content-parts array
(part_003 lines 562-605). -/
def contentElemParts (env : JsEnv) (v : JVal) : List GPart :=
  if v.get "type" == .str "text" then
    [{ text := match v.get "text" with | .str s => some s | _ => none }]
  else if v.get "type" == .str "image_url" && (v.get "image_url").truthy then
    match (v.get "image_url").get "url" with
    | .str dataUrl =>
      match matchDataImageUrl dataUrl with
      | some (mime, data) => [{ inlineData := some (mime, data) }]
      | none =>
        if jsHttpUrl dataUrl then
          match env.httpGetImage dataUrl with
          | some (hdr, b64) =>
            let mimeType :=
              match hdr with
              | some m =>
                if m = "" || m = "application/octet-stream" then
                  (env.mimeLookup dataUrl).getD "image/jpeg"
                else m
              | none => (env.mimeLookup dataUrl).getD "image/jpeg"
            [{ inlineData := some (mimeType, b64) }]
          | none =>
            [{ text := some ("[System Note: Failed to load image from " ++ dataUrl ++ "]") }]
        else []
    | _ => []
  else []

/-- Translation of a message `content` value into Gemini parts
(part_003 lines 557-606): a nonempty string becomes one text part, an
array is translated element-wise, anything else yields no parts. -/
def contentParts (env : JsEnv) (content : JVal) : List GPart :=
  match content with
  | .str s => if s.length > 0 then [{ text := some s }] else []
  | .arr elems => elems.flatMap (contentElemParts env)
  | _ => []

/-- Translation of an assistant `tool_calls` array into `functionCall`
parts (part_003 lines 517-555). The boolean accumulator is the
`signatureAttachedToCall` flag: the placeholder signature goes on the first
converted call only. -/
def toolCallPartsAux (env : JsEnv) : Bool → List OAIToolCall → List GPart
  | _, [] => []
  | sigDone, tc :: rest =>
    match tc.function with
    | some fn =>
      if tc.type == "function" then
        let args : JVal :=
          match fn.arguments with
          | .str s => (env.parseJson s).getD (.obj [])
          | v => v
        let base : GPart := { functionCall := some (fn.name, args) }
        if !sigDone then
          ({ base with thoughtSignature := some DUMMY_THOUGHT_SIGNATURE }) :: toolCallPartsAux env true rest
        else
          base :: toolCallPartsAux env sigDone rest
      else toolCallPartsAux env sigDone rest
    | none => toolCallPartsAux env sigDone rest

/-- Gemini parts produced by one non-tool conversation message: the
`functionCall` parts of an assistant message with `tool_calls`, followed by
the parts of its content. -/
def msgParts (env : JsEnv) (m : OAIMsg) : List GPart :=
  (if m.role == "assistant" then
    match m.tool_calls with
    | some tcs => toolCallPartsAux env false tcs
    | none => []
  else []) ++ contentParts env m.content

/-- Conversion of one `tool` role message into a `functionResponse` part
(part_003 lines 486-510): string content is parsed as JSON and wrapped in
`{result: content}` on failure; a falsy `name` falls back to
`unknown_function`. -/
def toolRespPart (env : JsEnv) (m : OAIMsg) : GPart :=
  let responseContent : JVal :=
    match m.content with
    | .str s => (env.parseJson s).getD (.obj [("result", m.content)])
    | v => v
  let functionName : String :=
    match m.name with
    | some n => if n = "" then "unknown_function" else n
    | none => "unknown_function"
  { functionResponse := some (functionName, responseContent) }

/-- Flush of the pending tool-part buffer (`flushToolParts`, part_003
lines 471-479): a nonempty buffer becomes one `contents` entry of role
`user`. -/
def flushEntry (pending : List GPart) : List GContent :=
  if pending.isEmpty then [] else [{ role := "user", parts := pending }]

/-- Main conversation loop of `translateOpenAIToGoogle` (part_003
lines 481-617), with the pending tool-part buffer made explicit: tool
messages accumulate into the buffer; any other message first flushes the
buffer, then contributes its own entry when it produced at least one part;
the buffer is flushed once more after the loop. -/
def convLoop (env : JsEnv) : List OAIMsg → List GPart → List GContent
  | [], pending => flushEntry pending
  | m :: rest, pending =>
    if m.role == "tool" then convLoop env rest (pending ++ [toolRespPart env m])
    else
      flushEntry pending ++
        (let ps := msgParts env m
          if ps.isEmpty then []
          else [{ role := if m.role == "assistant" then "model" else "user", parts := ps }]) ++
        convLoop env rest []

/-- Result of the request translation restricted to the fields the checked
properties mention. -/
structure GoogleRequest where
  contents : List GContent
  systemInstruction : Option GContent := none
deriving Repr, BEq

/-- `FormatConverter.translateOpenAIToGoogle` (part_003 lines 439-859)
restricted to `contents` and `systemInstruction`: system messages are
joined into a single instruction emitted with role `user`; the remaining
messages run through the conversation loop with an empty buffer. -/
def translateOpenAIToGoogle (env : JsEnv) (messages : List OAIMsg) : GoogleRequest :=
  let systemMessages := messages.filter (fun m => m.role == "system")
  let sysInstr : Option GContent :=
    if systemMessages.isEmpty then none
    else some
      { role := "user"
        parts := [{ text := some (String.intercalate "\n" (systemMessages.map (fun m => m.content.toStr))) }] }
  let conversationMessages := messages.filter (fun m => m.role != "system")
  { contents := convLoop env conversationMessages []
    systemInstruction := sysInstr }

/-- Predicate selecting the messages the tool-message buffering concerns. -/
def isToolMsg (m : OAIMsg) : Bool := m.role == "tool"

/-- Maximal runs of consecutive `tool` role messages of a message list, in
order; used to state claim C1. -/
def maximalToolRuns : List OAIMsg → List (List OAIMsg)
  | [] => []
  | m :: rest =>
    if isToolMsg m then
      (m :: rest.takeWhile isToolMsg) :: maximalToolRuns (rest.dropWhile isToolMsg)
    else maximalToolRuns rest
termination_by l => l.length
decreasing_by
  · have h := (List.dropWhile_sublist (l := rest) isToolMsg).length_le
    simp only [List.length_cons]
    omega
  · simp

/-- Boolean recogniser of a flushed tool entry: a nonempty parts list all
of whose elements are `functionResponse` parts. -/
def toolEntryB (c : GContent) : Bool :=
  !c.parts.isEmpty && c.parts.all (fun p => p.functionResponse.isSome)

/-- Entry the claim predicts for one maximal run of tool messages. -/
def mkRunEntry (env : JsEnv) (run : List OAIMsg) : GContent :=
  { role := "user", parts := run.map (toolRespPart env) }

/-! ## Format Converter: Google → OpenAI responses

`_parseUsage`, `translateGoogleToOpenAIStream` and
`convertGoogleToOpenAINonStream` (part_003 lines 861-1191). The stream
converter is modelled after JSON parsing: its input is one decoded Google
response object, its output the list of OpenAI chunk objects whose
`data: …` serializations the source concatenates, together with the
updated stream state. Random `chatcmpl-…`/`call_…` identifiers and the
`created` timestamp are omitted from the chunk records. -/

structure TokenDetail where
  modality : Option String := none
  tokenCount : Option Nat := none
deriving Repr, BEq

structure UsageMetadata where
  promptTokenCount : Option Nat := none
  toolUsePromptTokenCount : Option Nat := none
  candidatesTokenCount : Option Nat := none
  thoughtsTokenCount : Option Nat := none
  totalTokenCount : Option Nat := none
  candidatesTokensDetails : Option (List TokenDetail) := none
deriving Repr, BEq

structure CompletionTokensDetails where
  image_tokens : Nat
  output_text_tokens : Nat
  reasoning_tokens : Nat
deriving Repr, DecidableEq

structure PromptTokensDetails where
  text_tokens : Nat
  tool_tokens : Nat
deriving Repr, DecidableEq

/-- OpenAI usage object; the details objects are `none` where the source
emits a usage without them (the no-candidate early return). -/
structure OAIUsage where
  completion_tokens : Nat
  completion_tokens_details : Option CompletionTokensDetails := none
  prompt_tokens : Nat
  prompt_tokens_details : Option PromptTokensDetails := none
  total_tokens : Nat
deriving Repr, DecidableEq

/-- One candidate of a Google response; `content` is `none` when the
candidate has no `content` object or its `parts` is not an array. -/
structure GCandidate where
  content : Option (List GPart) := none
  finishReason : Option String := none
deriving Repr, BEq

structure GoogleResponse where
  candidates : List GCandidate := []
  usageMetadata : Option UsageMetadata := none
  promptFeedback : Option JVal := none
deriving Repr, BEq

/-- Summation of `tokenCount` over the `IMAGE` modality entries of
`candidatesTokensDetails` (part_003 lines 1165-1171). -/
def imageTokensSum : Option (List TokenDetail) → Nat
  | some ds => ds.foldl (fun acc d => if d.modality == some "IMAGE" then acc + d.tokenCount.getD 0 else acc) 0
  | none => 0

/-- `FormatConverter._parseUsage` (part_003 lines 1155-1191). -/
def parseUsage (googleResponse : GoogleResponse) : OAIUsage :=
  let usage := googleResponse.usageMetadata.getD {}
  let inputTokens := usage.promptTokenCount.getD 0
  let toolPromptTokens := usage.toolUsePromptTokenCount.getD 0
  let completionTextTokens := usage.candidatesTokenCount.getD 0
  let reasoningTokens := usage.thoughtsTokenCount.getD 0
  let completionImageTokens := imageTokensSum usage.candidatesTokensDetails
  { completion_tokens := completionTextTokens + reasoningTokens
    completion_tokens_details := some
      { image_tokens := completionImageTokens
        output_text_tokens := completionTextTokens
        reasoning_tokens := reasoningTokens }
    prompt_tokens := inputTokens + toolPromptTokens
    prompt_tokens_details := some
      { text_tokens := inputTokens
        tool_tokens := toolPromptTokens }
    total_tokens := (googleResponse.usageMetadata.bind (fun u => u.totalTokenCount)).getD 0 }

/-- `FormatConverter._mapFinishReason` (part_003 lines 1140-1149),
including the `(geminiReason || "stop")` defaulting of a falsy reason. -/
def mapFinishReason (geminiReason : Option String) : String :=
  let r := jsToLower (if truthyStr geminiReason then geminiReason.getD "stop" else "stop")
  if r = "max_tokens" then "length"
  else if r = "other" then "stop"
  else if r = "recitation" then "stop"
  else if r = "safety" then "content_filter"
  else if r = "stop" then "stop"
  else "stop"

/-- Per-request stream state (the `streamState` object): `idAssigned`
models the presence of the `id`/`created` pair. -/
structure StreamState where
  idAssigned : Bool := false
  usage : Option OAIUsage := none
  toolCallIndex : Option Nat := none
  hasFunctionCall : Bool := false
  roleSent : Bool := false
deriving Repr, DecidableEq

/-- One emitted `tool_calls` entry (the random `call_…` id is omitted). -/
structure ToolCallOut where
  name : String
  args : JVal
  index : Nat
deriving Repr, BEq

/-- Delta object of one emitted OpenAI chunk; the source puts at most one
tool call per delta. -/
structure Delta where
  role : Option String := none
  content : Option String := none
  reasoning_content : Option String := none
  tool_calls : Option ToolCallOut := none
deriving Repr, BEq

/-- One emitted OpenAI streaming chunk. -/
structure OAIChunk where
  delta : Delta := {}
  finish_reason : Option String := none
  usage : Option OAIUsage := none
deriving Repr, BEq

/-- Defaulting `funcCall.args || {}` of a falsy arguments value. -/
def jsOrObj (v : JVal) : JVal := if v.truthy then v else .obj []

/-- Markdown image token emitted for an `inlineData` part. -/
def imageMarkdown (mime data : String) : String :=
  "![Generated Image](data:" ++ mime ++ ";base64," ++ data ++ ")"

/-- Translation of one part of a streamed candidate (part_003
lines 936-981): the branch ladder over `thought`, `text`, `inlineData`
and `functionCall`, returning the produced delta (if any) and updating the
tool-call counter and `hasFunctionCall` flag. -/
def processPart (st : StreamState) (p : GPart) : Option Delta × StreamState :=
  if p.thought then
    if truthyStr p.text then (some { reasoning_content := p.text }, st)
    else (none, st)
  else if truthyStr p.text then (some { content := p.text }, st)
  else
    match p.inlineData with
    | some (mime, data) => (some { content := some (imageMarkdown mime data) }, st)
    | none =>
      match p.functionCall with
      | some (name, args) =>
        let toolCallIndex := st.toolCallIndex.getD 0
        (some { tool_calls := some ⟨name, jsOrObj args, toolCallIndex⟩ },
          { st with toolCallIndex := some (toolCallIndex + 1), hasFunctionCall := true })
      | none => (none, st)

/-- Attachment of the `assistant` role to the first content-carrying delta
of the stream (part_003 lines 984-988). -/
def attachRole (st : StreamState) (d : Delta) : Delta × StreamState :=
  if !st.roleSent then ({ d with role := some "assistant" }, { st with roleSent := true })
  else (d, st)

/-- Loop over the parts of a streamed candidate, collecting the emitted
chunks (each with `finish_reason` null). -/
def processParts (st : StreamState) : List GPart → List OAIChunk × StreamState
  | [] => ([], st)
  | p :: rest =>
    match processPart st p with
    | (some d, st₁) =>
      let (d', st₂) := attachRole st₁ d
      let (chunks, st₃) := processParts st₂ rest
      ({ delta := d' } :: chunks, st₃)
    | (none, st₁) => processParts st₁ rest

/-- Synthetic content of the safety-block chunk (part_003 line 920). -/
def safetyBlockText (blockReason : JVal) : String :=
  "[ProxySystem Error] Request blocked due to safety settings. Finish Reason: " ++ blockReason.toStr

/-- `FormatConverter.translateGoogleToOpenAIStream` (part_003
lines 867-1040) on one decoded Google chunk: cache usage, handle the
no-candidate/promptFeedback case, translate the parts of the first
candidate, and append the final chunk when a truthy `finishReason` is
present. -/
def translateGoogleToOpenAIStream (resp : GoogleResponse) (st : StreamState) :
    List OAIChunk × StreamState :=
  let st₀ := { st with idAssigned := true }
  let st₁ := if resp.usageMetadata.isSome then { st₀ with usage := some (parseUsage resp) } else st₀
  match resp.candidates.head? with
  | none =>
    match resp.promptFeedback with
    | some pf =>
      ([{ delta := { content := some (safetyBlockText (pf.get "blockReason")) }
          finish_reason := some "stop" }], st₁)
    | none => ([], st₁)
  | some candidate =>
    let (chunks, st₂) :=
      match candidate.content with
      | some ps => processParts st₁ ps
      | none => ([], st₁)
    if truthyStr candidate.finishReason then
      let finishReason := if st₂.hasFunctionCall then "tool_calls" else mapFinishReason candidate.finishReason
      (chunks ++ [{ finish_reason := some finishReason, usage := st₂.usage }], st₂)
    else (chunks, st₂)

/-- Fresh stream state allocated per request. -/
def initStreamState : StreamState := {}

/-- Run of the stream converter over a whole sequence of decoded Google
chunks with one shared stream state, concatenating the emitted OpenAI
chunks. -/
def runStream (st : StreamState) : List GoogleResponse → List OAIChunk × StreamState
  | [] => ([], st)
  | r :: rest =>
    let (cs, st₁) := translateGoogleToOpenAIStream r st
    let (rest', st₂) := runStream st₁ rest
    (cs ++ rest', st₂)

/-- Message object of a non-streaming completion; an empty `tool_calls`
list models the absent field. -/
structure OAIMessage where
  content : String
  role : String := "assistant"
  reasoning_content : Option String := none
  tool_calls : List ToolCallOut := []
deriving Repr, BEq

/-- Non-streaming completion restricted to the fields the checked
properties mention (random id and timestamp omitted). -/
structure OAICompletion where
  finish_reason : String
  message : OAIMessage
  usage : OAIUsage
deriving Repr, BEq

/-- Accumulation loop of `convertGoogleToOpenAINonStream` over the parts of
the first candidate (part_003 lines 1074-1101), carrying the content
string, the reasoning string and the collected tool calls. -/
def nonStreamWalk : List GPart → String → String → List ToolCallOut →
    String × String × List ToolCallOut
  | [], content, reasoning, tcs => (content, reasoning, tcs)
  | p :: rest, content, reasoning, tcs =>
    if p.thought then nonStreamWalk rest content (reasoning ++ p.text.getD "") tcs
    else if truthyStr p.text then nonStreamWalk rest (content ++ p.text.getD "") reasoning tcs
    else
      match p.inlineData with
      | some (mime, data) => nonStreamWalk rest (content ++ imageMarkdown mime data) reasoning tcs
      | none =>
        match p.functionCall with
        | some (name, args) =>
          nonStreamWalk rest content reasoning (tcs ++ [⟨name, jsOrObj args, tcs.length⟩])
        | none => nonStreamWalk rest content reasoning tcs

/-- `FormatConverter.convertGoogleToOpenAINonStream` (part_003
lines 1045-1133): without a candidate it returns the fixed empty
completion with an all-zero usage; otherwise it aggregates the parts,
derives the finish reason (overridden to `tool_calls` when any function
call was collected) and attaches the parsed usage. -/
def convertGoogleToOpenAINonStream (resp : GoogleResponse) : OAICompletion :=
  match resp.candidates.head? with
  | none =>
    { finish_reason := "stop"
      message := { content := "" }
      usage := { completion_tokens := 0, prompt_tokens := 0, total_tokens := 0 } }
  | some candidate =>
    let (content, reasoning, tcs) := nonStreamWalk (candidate.content.getD []) "" "" []
    { finish_reason := if tcs.length > 0 then "tool_calls" else mapFinishReason candidate.finishReason
      message :=
        { content := content
          reasoning_content := if reasoning ≠ "" then some reasoning else none
          tool_calls := tcs }
      usage := parseUsage resp }

/-! ## Client Agent (scripts/client/build.js)

`_sanitizeHeaders`, `_constructUrl`, the `responseModalities`
normalization of `_buildRequestConfig`, and the body-forwarding loop of
`_processProxyRequest`. Strings are Lean strings; `toUpperCase` is
modelled on basic latin letters; URL percent-encoding is not modelled (the
checked properties quantify over already-decoded components). -/

/-- Test `s.includes(pat)` for a nonempty pattern. -/
def jsIncludes (s pat : String) : Bool := (firstSplit pat.data s.data).isSome

/-- Model of `String.prototype.replace` with a plain-string pattern: only
the first occurrence is replaced. -/
def replaceFirst (s pat repl : String) : String :=
  match firstSplit pat.data s.data with
  | some (pre, post) => ⟨pre ++ repl.data ++ post⟩
  | none => s

/-- Index `s.indexOf(pat)` of the first occurrence of a substring, `-1`
when absent. -/
def indexOfSubstr (s pat : String) : Int :=
  match firstSplit pat.data s.data with
  | some (pre, _) => (pre.length : Int)
  | none => -1

/-- Character class `[a-z0-9]` of the upload-path regular expressions. -/
def isVFilesChar (c : Char) : Bool :=
  ('a' ≤ c && c ≤ 'z') || ('0' ≤ c && c ≤ '9')

/-- Matcher for `[a-z0-9]*\/files` with a backtracking star. -/
def matchVFilesStar : List Char → Bool
  | [] => false
  | c :: rest =>
    listStartsWith (c :: rest) ("/files".toList) || (isVFilesChar c && matchVFilesStar rest)

/-- Matcher for `v1[a-z0-9]*\/files` anchored at the head of the list. -/
def matchVersionFilesAt : List Char → Bool
  | 'v' :: '1' :: rest => matchVFilesStar rest
  | _ => false

/-- Matcher for `upload/v1[a-z0-9]*\/files` anchored at the head. -/
def matchUploadVersionFilesAt (cs : List Char) : Bool :=
  listStartsWith cs ("upload/".toList) && matchVersionFilesAt (cs.drop 7)

/-- Unanchored regular-expression search: some suffix matches at its head. -/
def searchAny (p : List Char → Bool) : List Char → Bool
  | [] => p []
  | c :: rest => p (c :: rest) || searchAny p rest

/-- Request descriptor fields read by the modelled Client Agent code.
Query parameters and headers are association lists standing for plain
JavaScript objects (keys unique). -/
structure RequestDescriptor where
  request_id : String := ""
  method : Option String := none
  path : Option String := none
  url : Option String := none
  query_params : List (String × String) := []
  headers : List (String × String) := []
  streaming_mode : Option String := none
deriving Repr, BEq

/-- Lookup `params.get(k)`: the value of the first binding. -/
def qpGet (ps : List (String × String)) (k : String) : Option String :=
  (ps.find? (fun kv => kv.1 == k)).map (fun kv => kv.2)

/-- Deletion `params.delete(k)` of every binding of a key. -/
def qpDeleteAll (ps : List (String × String)) (k : String) : List (String × String) :=
  ps.filter (fun kv => kv.1 ≠ k)

/-- Serialization `params.toString()` (percent-encoding not modelled). -/
def qpToString (ps : List (String × String)) : String :=
  String.intercalate "&" (ps.map (fun kv => kv.1 ++ "=" ++ kv.2))

/-- Fake-streaming adjustment of the query parameters (build.js
lines 242-246): when the first `alt` value is `sse`, every `alt` binding
is deleted. -/
def fakeAdjustedParams (d : RequestDescriptor) : List (String × String) :=
  if d.streaming_mode == some "fake" && qpGet d.query_params "alt" == some "sse" then
    qpDeleteAll d.query_params "alt"
  else d.query_params

/-- Fake-streaming adjustment of the path (build.js lines 250-252). -/
def fakeAdjustedPath (d : RequestDescriptor) (pathSegment : String) : String :=
  if d.streaming_mode == some "fake" && jsIncludes pathSegment ":streamGenerateContent" then
    replaceFirst pathSegment ":streamGenerateContent" ":generateContent"
  else pathSegment

/-- First stage of `_constructUrl` (build.js lines 235-256): a truthy
pre-built `url` is taken verbatim and skips both fake-streaming
adjustments; otherwise the path-and-query string is assembled from `path`
and `query_params`. -/
def initialPathAndQuery (d : RequestDescriptor) : String :=
  if truthyStr d.url then d.url.getD ""
  else
    let finalPath := fakeAdjustedPath d (d.path.getD "")
    let queryString := qpToString (fakeAdjustedParams d)
    finalPath ++ (if queryString ≠ "" then "?" ++ queryString else "")

/-- Rewrite of an absolute URL to its path-and-search component (build.js
lines 259-268); the fragment is dropped and a missing path becomes `/`. -/
def stripAbsoluteUrl (s : String) : String :=
  if jsHttpUrl s then
    let rest := s.data.drop (if listStartsWith s.data ("https://".data) then 8 else 7)
    let tail := rest.dropWhile (fun c => c ≠ '/' && c ≠ '?')
    match tail with
    | [] => "/"
    | '?' :: _ => String.mk ('/' :: tail.takeWhile (fun c => c ≠ '#'))
    | _ => String.mk (tail.takeWhile (fun c => c ≠ '#'))
  else s

/-- Split of a path-and-query string at its first `?`. -/
def splitPathQuery (s : String) : String × String :=
  match firstSplit ['?'] s.data with
  | some (p, q) => (⟨p⟩, ⟨q⟩)
  | none => (s, "")

/-- Split of a character list at every occurrence of a nonempty separator. -/
def splitAllOn (sep : List Char) : List Char → List (List Char)
  | [] => [[]]
  | c :: rest =>
    if listStartsWith (c :: rest) sep && sep ≠ [] then
      [] :: splitAllOn sep ((c :: rest).drop sep.length)
    else
      match splitAllOn sep rest with
      | g :: gs => (c :: g) :: gs
      | [] => [[c]]
termination_by l => l.length
decreasing_by
  · rename_i h
    simp only [Bool.and_eq_true, decide_eq_true_eq] at h
    have hsep : sep.length ≥ 1 := by
      cases sep with
      | nil => exact absurd rfl h.2
      | cons a as => simp
    simp only [List.length_drop, List.length_cons]
    omega
  · simp

/-- Dynamic target-host extraction (build.js lines 270-284): when the
path-and-query mentions a `__proxy_host__` parameter, its first value
becomes the target host and every binding of it is removed. -/
def proxyHostStage (pathAndQuery : String) (targetDomain : String) : String × String :=
  if jsIncludes pathAndQuery "__proxy_host__=" then
    let (p, q) := splitPathQuery pathAndQuery
    let params := (splitAllOn ['&'] q.data).filter (fun kv => kv ≠ [])
    let pairs : List (String × String) := params.map (fun kv =>
      match firstSplit ['='] kv with
      | some (k, v) => (⟨k⟩, ⟨v⟩)
      | none => (⟨kv⟩, ""))
    match qpGet pairs "__proxy_host__" with
    | some host =>
      let remaining := qpDeleteAll pairs "__proxy_host__"
      let search := qpToString remaining
      (p ++ (if search ≠ "" then "?" ++ search else ""), host)
    | none => (pathAndQuery, targetDomain)
  else (pathAndQuery, targetDomain)

/-- Upload-path normalization of `_constructUrl` (build.js lines 289-309). -/
def uploadPathFix (targetDomain : String) (method : String) (cleanPath : String) : String :=
  if jsIncludes targetDomain "generativelanguage" then
    if searchAny matchUploadVersionFilesAt cleanPath.data then
      let index := indexOfSubstr cleanPath "upload/"
      if index > 0 then String.mk (cleanPath.data.drop index.toNat) else cleanPath
    else if method = "POST" && matchVersionFilesAt cleanPath.data then
      "upload/" ++ cleanPath
    else cleanPath
  else cleanPath

/-- `RequestProcessor._constructUrl` (build.js lines 234-314). -/
def constructUrl (targetDomain : String) (d : RequestDescriptor) : String :=
  let pathAndQuery := stripAbsoluteUrl (initialPathAndQuery d)
  let (pathAndQuery, targetHost) := proxyHostStage pathAndQuery targetDomain
  let cleanPath := String.mk (pathAndQuery.data.dropWhile (fun c => c = '/'))
  let method := if truthyStr d.method then jsToUpper (d.method.getD "") else "GET"
  let cleanPath := uploadPathFix targetDomain method cleanPath
  "https://" ++ targetHost ++ "/" ++ cleanPath

/-- Default upstream host injected into the Client Agent. -/
def targetDomainDefault : String := "generativelanguage.googleapis.com"

/-- Forbidden-header list of `_sanitizeHeaders` (build.js lines 456-466). -/
def forbiddenHeaders : List String :=
  ["host", "connection", "content-length", "origin", "referer", "user-agent",
   "sec-fetch-mode", "sec-fetch-site", "sec-fetch-dest"]

/-- `RequestProcessor._sanitizeHeaders` (build.js lines 453-470): the
spread copy followed by one `delete` per forbidden name. -/
def sanitizeHeaders (headers : List (String × String)) : List (String × String) :=
  forbiddenHeaders.foldl (fun acc h => acc.filter (fun kv => kv.1 ≠ h)) headers

/-- Normalization of `generationConfig.responseModalities` in
`_buildRequestConfig` (build.js lines 416-427), including the enclosing
truthiness guard: an array uppercases its string elements in place, a
single string is uppercased and wrapped, anything else is untouched. -/
def normalizeResponseModalities (v : JVal) : JVal :=
  if v.truthy then
    match v with
    | .arr ms => .arr (ms.map (fun m => match m with | .str s => .str (jsToUpper s) | m => m))
    | .str s => .arr [.str (jsToUpper s)]
    | v => v
  else v

/-- Frames the Client Agent sends back for one successfully fetched
response body (error frames are out of the modelled success path). -/
inductive Frame where
  | chunk : String → Frame
  | streamClose : Frame
deriving Repr, DecidableEq

/-- Body-forwarding loop of `_processProxyRequest` (build.js
lines 569-597) over the decoded chunks of the upstream body, with the
`fullBody` accumulator explicit: `real` mode forwards each nonempty chunk
as it arrives, `fake` mode accumulates and forwards the concatenation once
after EOF when it is nonempty; a `stream_close` frame always follows. -/
def processBody (mode : String) : List String → String → List Frame
  | [], fullBody =>
    (if mode == "fake" then (if fullBody = "" then [] else [Frame.chunk fullBody]) else []) ++
      [Frame.streamClose]
  | c :: rest, fullBody =>
    if mode == "real" then
      (if c = "" then [] else [Frame.chunk c]) ++ processBody mode rest fullBody
    else processBody mode rest (fullBody ++ c)

/-! ## Derived notions used by the checked properties -/

/-- Test that every `functionCall` part of a Gemini body carries a
`thoughtSignature` field. -/
def allFnCallsSigned (b : GeminiBody) : Bool :=
  (b.contents.getD []).all (fun c => (c.parts.getD []).all
    (fun p => !p.functionCall.isSome || p.thoughtSignature.isSome))

/-- Trivial converter environment used for concrete evaluations: JSON
parsing fails, image downloads fail, MIME lookup finds nothing. -/
def trivEnv : JsEnv :=
  { parseJson := fun _ => none, httpGetImage := fun _ => none, mimeLookup := fun _ => none }

/-- Concrete message list with a system message between two tool
messages. -/
def c1Msgs : List OAIMsg :=
  [ { role := "tool", content := .obj [("r", .num 1)], name := some "a" },
    { role := "system", content := .str "s" },
    { role := "tool", content := .obj [("r", .num 2)], name := some "b" } ]

/-- Expected tool entries of the conversation loop when it starts with a
pending buffer: the buffer merges with a leading tool run, a non-tool head
flushes it as its own entry. Auxiliary notion for the proof of C1. -/
def runsMerge (env : JsEnv) (pending : List GPart) : List OAIMsg → List GContent
  | [] => flushEntry pending
  | m :: rest =>
    if isToolMsg m then
      { role := "user", parts := pending ++ (m :: rest.takeWhile isToolMsg).map (toolRespPart env) }
        :: (maximalToolRuns (rest.dropWhile isToolMsg)).map (mkRunEntry env)
    else
      flushEntry pending ++ (maximalToolRuns (m :: rest)).map (mkRunEntry env)

/-- Tool-call entries carried by a list of emitted streaming chunks, in
order. -/
def chunkToolCalls (cs : List OAIChunk) : List ToolCallOut :=
  cs.filterMap (fun c => c.delta.tool_calls)

/-- Concrete native Gemini body with two unsigned `functionCall` parts in
one contents entry. -/
def c6Body : GeminiBody :=
  { contents := some [ { parts := some [ { functionCall := some ("f", .obj []) },
                                         { functionCall := some ("g", .obj []) } ] } ] }

/-- Concrete Google response with usage metadata covering every summand. -/
def c7Resp : GoogleResponse :=
  { usageMetadata := some
      { promptTokenCount := some 3
        toolUsePromptTokenCount := some 4
        candidatesTokenCount := some 5
        thoughtsTokenCount := some 7
        totalTokenCount := some 100
        candidatesTokensDetails := some
          [ { modality := some "IMAGE", tokenCount := some 2 },
            { modality := some "TEXT", tokenCount := some 9 },
            { modality := some "IMAGE", tokenCount := some 1 } ] } }

/-- Concrete Google response with no candidates but prompt feedback. -/
def c10Resp : GoogleResponse :=
  { candidates := [], promptFeedback := some (.obj [("blockReason", .str "SAFETY")]) }

/-- Concrete descriptor carrying a pre-built `url` in fake streaming
mode. -/
def c4Desc : RequestDescriptor :=
  { request_id := "r1", method := some "POST",
    url := some "/v1beta/models/m:streamGenerateContent?alt=sse",
    streaming_mode := some "fake" }

/-- Concrete descriptor without a pre-built `url` in fake streaming
mode. -/
def c4WDesc : RequestDescriptor :=
  { request_id := "r2", method := some "POST",
    path := some "/v1beta/models/m:streamGenerateContent",
    query_params := [("alt", "sse"), ("key", "k")],
    streaming_mode := some "fake" }

/-! ## Theorems -/

theorem qrun_cons {M : Type} (s : QState M) (op : QOp M) (ops : List (QOp M)) :
    qrun s (op :: ops) =
      ((qrun (qstep s op).1 ops).1, (qstep s op).2 ++ (qrun (qstep s op).1 ops).2) := rfl

theorem qstep_preserves_not_waiting {M : Type} (s : QState M) (op : QOp M) (w : Nat)
    (hw : w ∉ s.waitingResolvers) (hop : op ≠ QOp.dequeue w) :
    w ∉ (qstep s op).1.waitingResolvers ∧ ∀ m', QEvt.delivered w m' ∉ (qstep s op).2 := by
  cases op with
  | enqueue m =>
    by_cases hc : s.closed
    · simp [qstep, hc, hw]
    · cases hwr : s.waitingResolvers with
      | nil => simp [qstep, hc, hwr]
      | cons w₀ rest =>
        rw [hwr] at hw
        simp only [List.mem_cons, not_or] at hw
        simp [qstep, hc, hwr, hw.1, hw.2]
  | dequeue w₀ =>
    have hne : w₀ ≠ w := fun h => hop (by rw [h])
    by_cases hc : s.closed
    · simp [qstep, hc, hw]
    · cases hms : s.messages with
      | nil => simp [qstep, hc, hms, hw, hne.symm]
      | cons m rest => simp [qstep, hc, hms, hw]
  | timeout w₀ =>
    by_cases hm : w₀ ∈ s.waitingResolvers
    · refine ⟨fun hmem => hw ?_, by simp [qstep, hm]⟩
      have : w ∈ s.waitingResolvers.erase w₀ := by
        simpa [qstep, hm] using hmem
      exact List.mem_of_mem_erase this
    · simp [qstep, hm, hw]
  | close =>
    constructor
    · simp [qstep]
    · intro m'
      simp only [qstep]
      intro hmem
      rcases List.mem_map.mp hmem with ⟨x, _, hx⟩
      exact QEvt.noConfusion hx

theorem qrun_not_delivered {M : Type} (ops : List (QOp M)) (s : QState M) (w : Nat)
    (hw : w ∉ s.waitingResolvers) (hops : ∀ op ∈ ops, op ≠ QOp.dequeue w) :
    ∀ m', QEvt.delivered w m' ∉ (qrun s ops).2 := by
  induction ops generalizing s with
  | nil => simp [qrun]
  | cons op ops ih =>
    intro m'
    have h1 := qstep_preserves_not_waiting s op w hw (hops op (by simp))
    have h2 := ih (qstep s op).1 h1.1 (fun o ho => hops o (by simp [ho]))
    rw [qrun_cons]
    simp only [List.mem_append, not_or]
    exact ⟨h1.2 m', h2 m'⟩

/-- C3: enqueue on a closed queue is a silent no-op (the state is unchanged
and the only event is the silent drop of the message, never a delivery);
dequeue on a closed queue fails with the close-kind error; and once a
waiter has been dropped (it is no longer registered) it never receives any
message enqueued later, provided the trace never re-registers the same
resolver — which cannot happen in the source, where each `dequeue` call
allocates a fresh resolver object. -/
theorem mq_closed_and_timeout_semantics {M : Type} (s : QState M) (m : M) (w : Nat)
    (ops : List (QOp M)) :
    (s.closed = true →
      qstep s (.enqueue m) = (s, [.dropped m]) ∧
      qstep s (.dequeue w) = (s, [.closedErr w])) ∧
    (w ∉ s.waitingResolvers → (∀ op ∈ ops, op ≠ QOp.dequeue w) →
      ∀ m', QEvt.delivered w m' ∉ (qrun s ops).2) := by
  constructor
  · intro hc
    constructor <;> simp [qstep, hc]
  · intro hw hops
    exact qrun_not_delivered ops s w hw hops

theorem mq_closed_and_timeout_semantics_witness :
    (qstep (⟨[], [], true⟩ : QState Nat) (.enqueue 0) = (⟨[], [], true⟩, [.dropped 0]) ∧
      qstep (⟨[], [], true⟩ : QState Nat) (.dequeue 1) = (⟨[], [], true⟩, [.closedErr 1])) ∧
    QEvt.delivered 2 5 ∉ (qrun (⟨[], [7], false⟩ : QState Nat) [.enqueue 5, .timeout 7]).2 := by
  have h := mq_closed_and_timeout_semantics (⟨[], [], true⟩ : QState Nat) 0 1 ([] : List (QOp Nat))
  have h2 := mq_closed_and_timeout_semantics (⟨[], [7], false⟩ : QState Nat) 0 2
    [QOp.enqueue 5, QOp.timeout 7]
  exact ⟨h.1 rfl, h2.2 (by decide) (by decide) 5⟩

theorem qstep_closed_empty_fix {M : Type} (s : QState M) (op : QOp M)
    (hc : s.closed = true) (hm : s.messages = []) (hw : s.waitingResolvers = []) :
    (qstep s op).1 = s ∧
      ∀ w m, QEvt.popped w m ∉ (qstep s op).2 ∧ QEvt.delivered w m ∉ (qstep s op).2 := by
  obtain ⟨ms, ws, c⟩ := s
  simp only at hc hm hw
  subst hc hm hw
  cases op <;> simp [qstep]

theorem qrun_closed_empty {M : Type} (ops : List (QOp M)) (s : QState M)
    (hc : s.closed = true) (hm : s.messages = []) (hw : s.waitingResolvers = []) :
    (qrun s ops).1 = s ∧
      ∀ w m, QEvt.popped w m ∉ (qrun s ops).2 ∧ QEvt.delivered w m ∉ (qrun s ops).2 := by
  induction ops generalizing s with
  | nil => simp [qrun]
  | cons op ops ih =>
    have h1 := qstep_closed_empty_fix s op hc hm hw
    have h2 := ih (qstep s op).1 (by rw [h1.1]; exact hc) (by rw [h1.1]; exact hm)
      (by rw [h1.1]; exact hw)
    rw [qrun_cons]
    refine ⟨by rw [h2.1, h1.1], ?_⟩
    intro w m
    simp only [List.mem_append, not_or]
    exact ⟨⟨(h1.2 w m).1, (h2.2 w m).1⟩, ⟨(h1.2 w m).2, (h2.2 w m).2⟩⟩

/-- C9: `close` rejects exactly the pending waiters (in FIFO order), clears
the waiter list, discards every buffered message, and leaves the queue in
the closed empty state; afterwards no trace of operations can ever pop or
deliver a message (no message survives a close), and a second `close`
returns the same state while rejecting nobody (idempotence). -/
theorem mq_close_rejects_discards_idempotent {M : Type} (s : QState M) (ops : List (QOp M)) :
    (qstep s .close).2 = s.waitingResolvers.map QEvt.rejected ∧
    (qstep s .close).1 = ⟨[], [], true⟩ ∧
    (qrun (qstep s .close).1 ops).1.messages = [] ∧
    (∀ w m, QEvt.popped w m ∉ (qrun (qstep s .close).1 ops).2 ∧
      QEvt.delivered w m ∉ (qrun (qstep s .close).1 ops).2) ∧
    qstep (qstep s .close).1 .close = ((qstep s .close).1, []) := by
  have hrun := qrun_closed_empty ops (qstep s .close).1 (by simp [qstep]) (by simp [qstep])
    (by simp [qstep])
  refine ⟨rfl, rfl, ?_, hrun.2, by simp [qstep]⟩
  rw [hrun.1]
  simp [qstep]

theorem mq_close_rejects_discards_idempotent_witness :
    (qstep (⟨[9], [3, 4], false⟩ : QState Nat) .close).2 = [.rejected 3, .rejected 4] ∧
    (qstep (⟨[9], [3, 4], false⟩ : QState Nat) .close).1 = ⟨[], [], true⟩ ∧
    (qrun (qstep (⟨[9], [3, 4], false⟩ : QState Nat) .close).1
        [.enqueue 1, .dequeue 2]).1.messages = [] ∧
    QEvt.popped 2 9 ∉
      (qrun (qstep (⟨[9], [3, 4], false⟩ : QState Nat) .close).1 [.enqueue 1, .dequeue 2]).2 := by
  have h := mq_close_rejects_discards_idempotent (⟨[9], [3, 4], false⟩ : QState Nat)
    [.enqueue 1, .dequeue 2]
  exact ⟨h.1, h.2.1, h.2.2.1, (h.2.2.2.1 2 9).1⟩

theorem foldl_filter_keys (keys : List String) (hs : List (String × String)) :
    keys.foldl (fun acc h => acc.filter (fun kv => kv.1 ≠ h)) hs
      = hs.filter (fun kv => kv.1 ∉ keys) := by
  induction keys generalizing hs with
  | nil => simp
  | cons k ks ih =>
    simp only [List.foldl_cons]
    rw [ih, List.filter_filter]
    congr 1
    funext kv
    simp [List.mem_cons, not_or, Bool.and_comm]

/-- C5 counterexample: the header `sec-fetch-user` matches `sec-fetch-*`
but survives `_sanitizeHeaders` untouched, refuting the claim that every
`sec-fetch-*` header is removed. -/
theorem sanitizeHeaders_keeps_sec_fetch_user :
    sanitizeHeaders [("sec-fetch-user", "?1")] = [("sec-fetch-user", "?1")] ∧
    listStartsWith ("sec-fetch-user".data) ("sec-fetch-".data) = true := by
  constructor <;> decide

/-- C5 (amended): `_sanitizeHeaders` removes exactly the nine literal names
of its forbidden list — `host`, `connection`, `content-length`, `origin`,
`referer`, `user-agent`, `sec-fetch-mode`, `sec-fetch-site`,
`sec-fetch-dest` — and leaves every other header (including any other
`sec-fetch-*` name) unchanged. -/
theorem sanitizeHeaders_removes_exact_list (headers : List (String × String)) :
    sanitizeHeaders headers = headers.filter (fun kv => kv.1 ∉ forbiddenHeaders) ∧
    ∀ kv ∈ headers, kv.1 ∉ forbiddenHeaders → kv ∈ sanitizeHeaders headers := by
  have h1 : sanitizeHeaders headers = headers.filter (fun kv => kv.1 ∉ forbiddenHeaders) :=
    foldl_filter_keys forbiddenHeaders headers
  refine ⟨h1, ?_⟩
  intro kv hmem hnotin
  rw [h1]
  exact List.mem_filter.mpr ⟨hmem, by simpa using hnotin⟩

theorem sanitizeHeaders_removes_exact_list_witness :
    sanitizeHeaders [("host", "h"), ("accept", "a")] = [("accept", "a")] ∧
    ("accept", "a") ∈ sanitizeHeaders [("host", "h"), ("accept", "a")] := by
  have h := sanitizeHeaders_removes_exact_list [("host", "h"), ("accept", "a")]
  exact ⟨h.1.trans (by decide), h.2 ("accept", "a") (by decide) (by decide)⟩

theorem char_ofNat_toNat (n : Nat) (h : n < 55296) : (Char.ofNat n).toNat = n := by
  have hv : n.isValidChar := Or.inl h
  simp only [Char.ofNat, dif_pos hv, Char.ofNatAux, Char.toNat]
  exact BitVec.toNat_ofNatLt _ _

theorem char_toUpper_idem (c : Char) : Char.toUpper (Char.toUpper c) = Char.toUpper c := by
  unfold Char.toUpper
  by_cases h : c.toNat ≥ 97 ∧ c.toNat ≤ 122
  · have h2 : (Char.ofNat (c.toNat - 32)).toNat = c.toNat - 32 :=
      char_ofNat_toNat (c.toNat - 32) (by omega)
    rw [if_pos h, if_neg (by rw [h2]; omega)]
  · rw [if_neg h, if_neg h]

theorem jsToUpper_idem (s : String) : jsToUpper (jsToUpper s) = jsToUpper s := by
  simp only [jsToUpper, List.map_map]
  congr 1
  exact List.map_congr_left (fun c _ => char_toUpper_idem c)

/-- C8: the `responseModalities` normalization of `_buildRequestConfig`
(wrap a single string in an array, uppercase every string element) is
idempotent on every value of the field. -/
theorem normalizeResponseModalities_idem (v : JVal) :
    normalizeResponseModalities (normalizeResponseModalities v)
      = normalizeResponseModalities v := by
  cases v with
  | str s =>
    by_cases h : s = ""
    · subst h; rfl
    · simp [normalizeResponseModalities, JVal.truthy, h, jsToUpper_idem]
  | arr ms =>
    simp only [normalizeResponseModalities, JVal.truthy, if_true, List.map_map]
    congr 1
    refine List.map_congr_left (fun m _ => ?_)
    cases m <;> simp [jsToUpper_idem]
  | undefined => rfl
  | null => rfl
  | bool b => cases b <;> rfl
  | num n =>
    by_cases h : n = 0
    · subst h; rfl
    · simp [normalizeResponseModalities, JVal.truthy, h]
  | obj fs => rfl

/-- C7: for every Google response carrying `usageMetadata`, the parsed
usage satisfies `prompt_tokens = promptTokenCount + toolUsePromptTokenCount`
and `completion_tokens = candidatesTokenCount + thoughtsTokenCount`, with
`prompt_tokens_details` splitting the prompt into its text and tool
components and `completion_tokens_details` splitting the completion into
its text, image and reasoning components. -/
theorem parseUsage_token_arithmetic (resp : GoogleResponse) (u : UsageMetadata)
    (h : resp.usageMetadata = some u) :
    (parseUsage resp).prompt_tokens
        = u.promptTokenCount.getD 0 + u.toolUsePromptTokenCount.getD 0 ∧
    (parseUsage resp).completion_tokens
        = u.candidatesTokenCount.getD 0 + u.thoughtsTokenCount.getD 0 ∧
    (parseUsage resp).prompt_tokens_details =
      some { text_tokens := u.promptTokenCount.getD 0
             tool_tokens := u.toolUsePromptTokenCount.getD 0 } ∧
    (parseUsage resp).completion_tokens_details =
      some { image_tokens := imageTokensSum u.candidatesTokensDetails
             output_text_tokens := u.candidatesTokenCount.getD 0
             reasoning_tokens := u.thoughtsTokenCount.getD 0 } := by
  simp [parseUsage, h]

theorem parseUsage_token_arithmetic_witness :
    (parseUsage c7Resp).prompt_tokens = 7 ∧
    (parseUsage c7Resp).completion_tokens = 12 ∧
    (parseUsage c7Resp).prompt_tokens_details = some { text_tokens := 3, tool_tokens := 4 } ∧
    (parseUsage c7Resp).completion_tokens_details =
      some { image_tokens := 3, output_text_tokens := 5, reasoning_tokens := 7 } := by
  have h := parseUsage_token_arithmetic c7Resp
    { promptTokenCount := some 3
      toolUsePromptTokenCount := some 4
      candidatesTokenCount := some 5
      thoughtsTokenCount := some 7
      totalTokenCount := some 100
      candidatesTokensDetails := some
        [ { modality := some "IMAGE", tokenCount := some 2 },
          { modality := some "TEXT", tokenCount := some 9 },
          { modality := some "IMAGE", tokenCount := some 1 } ] } rfl
  simpa [imageTokensSum] using h

/-- C10: a Google response without candidates converts, without any error
path, to the fixed completion whose single choice is the assistant message
with empty content, `finish_reason` `stop`, and an all-zero usage — even
when `promptFeedback` is present — whereas the streaming converter on the
same response emits the synthetic safety-block error chunk. -/
theorem nonStream_no_candidates (resp : GoogleResponse) (h : resp.candidates = []) :
    convertGoogleToOpenAINonStream resp =
      { finish_reason := "stop"
        message := { content := "", role := "assistant" }
        usage := { completion_tokens := 0, prompt_tokens := 0, total_tokens := 0 } } ∧
    (∀ pf st, resp.promptFeedback = some pf →
      (translateGoogleToOpenAIStream resp st).1 =
        [{ delta := { content := some (safetyBlockText (pf.get "blockReason")) }
           finish_reason := some "stop" }]) := by
  constructor
  · simp [convertGoogleToOpenAINonStream, h]
  · intro pf st hpf
    simp [translateGoogleToOpenAIStream, h, hpf]

theorem nonStream_no_candidates_witness :
    convertGoogleToOpenAINonStream c10Resp =
      { finish_reason := "stop"
        message := { content := "", role := "assistant" }
        usage := { completion_tokens := 0, prompt_tokens := 0, total_tokens := 0 } } ∧
    (translateGoogleToOpenAIStream c10Resp initStreamState).1 =
      [{ delta :=
          { content := some "[ProxySystem Error] Request blocked due to safety settings. Finish Reason: SAFETY" },
         finish_reason := some "stop" }] := by
  have h := nonStream_no_candidates c10Resp rfl
  refine ⟨h.1, ?_⟩
  have h2 := h.2 (.obj [("blockReason", .str "SAFETY")]) initStreamState rfl
  simpa [safetyBlockText, JVal.get, JVal.toStr] using h2

/-- C6 counterexample: on a contents entry holding two `functionCall` parts
without signatures, `ensureThoughtSignature` signs only the first; a
`functionCall` part without a `thoughtSignature` remains, refuting the
claim that every `functionCall` part carries one afterwards. -/
theorem ensureThoughtSignature_misses_second_call :
    allFnCallsSigned (ensureThoughtSignature c6Body) = false := by rfl

theorem ensurePartsSig_true_id (ps : List GPart) : ensurePartsSig true ps = ps := by
  induction ps with
  | nil => rfl
  | cons p rest ih => simp [ensurePartsSig, ih]

theorem ensurePartsSig_false_eq (ps : List GPart) :
    ensurePartsSig false ps = signFirstUnsigned ps := by
  induction ps with
  | nil => rfl
  | cons p rest ih =>
    by_cases h : (p.functionCall.isSome && !truthyStr p.thoughtSignature) = true
    · simp [ensurePartsSig, signFirstUnsigned, h, ensurePartsSig_true_id]
    · simp [ensurePartsSig, signFirstUnsigned, h, ih]

theorem ensureContent_eq (c : NContent) :
    (match c.parts with
      | none => c
      | some ps => { c with parts := some (ensurePartsSig false ps) }) =
    { c with parts := c.parts.map signFirstUnsigned } := by
  obtain ⟨role, parts⟩ := c
  cases parts <;> simp [ensurePartsSig_false_eq]

/-- C6 (amended): `ensureThoughtSignature` adds the placeholder signature
to exactly the first `functionCall` part lacking a truthy
`thoughtSignature` in each contents entry; every later part of the entry —
including further unsigned `functionCall` parts — is left unchanged. -/
theorem ensureThoughtSignature_first_unsigned (b : GeminiBody) :
    ensureThoughtSignature b =
      { contents := b.contents.map (fun cs => cs.map (fun c =>
          { c with parts := c.parts.map signFirstUnsigned })) } := by
  obtain ⟨contents⟩ := b
  cases contents with
  | none => rfl
  | some cs =>
    simp only [ensureThoughtSignature, Option.map]
    congr 2
    exact List.map_congr_left (fun c _ => ensureContent_eq c)

theorem chunkToolCalls_append (a b : List OAIChunk) :
    chunkToolCalls (a ++ b) = chunkToolCalls a ++ chunkToolCalls b := by
  simp [chunkToolCalls]

theorem processPart_toolcase (st : StreamState) (p : GPart) :
    (processPart st p = (none, st)) ∨
    (∃ d, d.tool_calls = none ∧ processPart st p = (some d, st)) ∨
    (∃ name args, processPart st p =
      (some { tool_calls := some ⟨name, args, st.toolCallIndex.getD 0⟩ },
        { st with toolCallIndex := some (st.toolCallIndex.getD 0 + 1), hasFunctionCall := true })) := by
  unfold processPart
  by_cases h1 : p.thought <;> by_cases h2 : truthyStr p.text <;> simp only [h1, h2]
  · right; left
    refine ⟨{ reasoning_content := p.text }, rfl, ?_⟩
    simp
  · left; simp
  · right; left
    refine ⟨{ content := p.text }, rfl, ?_⟩
    simp
  · cases hid : p.inlineData with
    | some md =>
      right; left
      refine ⟨{ content := some (imageMarkdown md.1 md.2) }, rfl, ?_⟩
      simp [hid]
    | none =>
      cases hfc : p.functionCall with
      | some na =>
        right; right
        refine ⟨na.1, jsOrObj na.2, ?_⟩
        simp [hid, hfc]
      | none =>
        left
        simp [hid, hfc]

theorem attachRole_preserves (st : StreamState) (d : Delta) :
    (attachRole st d).2.toolCallIndex = st.toolCallIndex ∧
    (attachRole st d).1.tool_calls = d.tool_calls := by
  unfold attachRole
  split <;> simp

theorem processParts_tool_indices (ps : List GPart) (st : StreamState) :
    (chunkToolCalls (processParts st ps).1).map (fun t => t.index)
      = List.range' (st.toolCallIndex.getD 0) (chunkToolCalls (processParts st ps).1).length ∧
    (processParts st ps).2.toolCallIndex.getD 0
      = st.toolCallIndex.getD 0 + (chunkToolCalls (processParts st ps).1).length := by
  induction ps generalizing st with
  | nil => simp [processParts, chunkToolCalls]
  | cons p rest ih =>
    rcases processPart_toolcase st p with h | ⟨d, htc, h⟩ | ⟨name, args, h⟩
    · simp only [processParts, h]
      exact ih st
    · simp only [processParts, h]
      have ha := attachRole_preserves st d
      have hih := ih (attachRole st d).2
      rw [ha.1] at hih
      simpa [chunkToolCalls, ha.2, htc] using hih
    · simp only [processParts, h]
      set d : Delta := { tool_calls := some ⟨name, args, st.toolCallIndex.getD 0⟩ } with hd
      set st' : StreamState :=
        { st with toolCallIndex := some (st.toolCallIndex.getD 0 + 1), hasFunctionCall := true }
        with hst'
      have ha := attachRole_preserves st' d
      have hih := ih (attachRole st' d).2
      rw [ha.1] at hih
      have hidx : st'.toolCallIndex.getD 0 = st.toolCallIndex.getD 0 + 1 := rfl
      rw [hidx] at hih
      have hcons :
          chunkToolCalls
              ({ delta := (attachRole st' d).1 } :: (processParts (attachRole st' d).2 rest).1)
            = (⟨name, args, st.toolCallIndex.getD 0⟩ : ToolCallOut)
                :: chunkToolCalls (processParts (attachRole st' d).2 rest).1 := by
        simp [chunkToolCalls, ha.2, hd]
      rw [hcons]
      constructor
      · simp only [List.map_cons, List.length_cons]
        rw [hih.1, List.range'_succ]
      · simp only [List.length_cons]
        rw [hih.2]
        omega

theorem translateStream_tool_indices (resp : GoogleResponse) (st : StreamState) :
    (chunkToolCalls (translateGoogleToOpenAIStream resp st).1).map (fun t => t.index)
      = List.range' (st.toolCallIndex.getD 0)
          (chunkToolCalls (translateGoogleToOpenAIStream resp st).1).length ∧
    (translateGoogleToOpenAIStream resp st).2.toolCallIndex.getD 0
      = st.toolCallIndex.getD 0
          + (chunkToolCalls (translateGoogleToOpenAIStream resp st).1).length := by
  unfold translateGoogleToOpenAIStream
  by_cases hu : resp.usageMetadata.isSome <;> simp only [hu, if_true, if_false] <;>
    cases hc : resp.candidates.head? <;> simp only [hc]
  case pos.none =>
    cases hpf : resp.promptFeedback <;> simp [chunkToolCalls]
  case pos.some candidate =>
    cases hcc : candidate.content with
    | none =>
      by_cases hfr : truthyStr candidate.finishReason = true <;>
        simp [hfr, chunkToolCalls]
    | some ps =>
      have hps := processParts_tool_indices ps { st with idAssigned := true, usage := some (parseUsage resp) }
      by_cases hfr : truthyStr candidate.finishReason = true <;>
        simp only [hfr, if_true, if_false, Bool.false_eq_true] <;>
        simpa [chunkToolCalls_append, chunkToolCalls] using hps
  case neg.none =>
    cases hpf : resp.promptFeedback <;> simp [chunkToolCalls]
  case neg.some candidate =>
    cases hcc : candidate.content with
    | none =>
      by_cases hfr : truthyStr candidate.finishReason = true <;>
        simp [hfr, chunkToolCalls]
    | some ps =>
      have hps := processParts_tool_indices ps { st with idAssigned := true }
      by_cases hfr : truthyStr candidate.finishReason = true <;>
        simp only [hfr, if_true, if_false, Bool.false_eq_true] <;>
        simpa [chunkToolCalls_append, chunkToolCalls] using hps

theorem runStream_cons (st : StreamState) (r : GoogleResponse) (rest : List GoogleResponse) :
    runStream st (r :: rest) =
      ((translateGoogleToOpenAIStream r st).1 ++ (runStream (translateGoogleToOpenAIStream r st).2 rest).1,
        (runStream (translateGoogleToOpenAIStream r st).2 rest).2) := rfl

theorem runStream_tool_indices (resps : List GoogleResponse) (st : StreamState) :
    (chunkToolCalls (runStream st resps).1).map (fun t => t.index)
      = List.range' (st.toolCallIndex.getD 0) (chunkToolCalls (runStream st resps).1).length ∧
    (runStream st resps).2.toolCallIndex.getD 0
      = st.toolCallIndex.getD 0 + (chunkToolCalls (runStream st resps).1).length := by
  induction resps generalizing st with
  | nil => simp [runStream, chunkToolCalls]
  | cons r rest ih =>
    rw [runStream_cons]
    have h1 := translateStream_tool_indices r st
    have h2 := ih (translateGoogleToOpenAIStream r st).2
    rw [h1.2] at h2
    simp only [chunkToolCalls_append, List.map_append, List.length_append]
    constructor
    · rw [h1.1, h2.1, List.range'_append_1]
      congr 1
      omega
    · rw [h2.2]
      omega

/-- C2: over any sequence of decoded Google stream chunks converted with
one shared fresh stream state, the `index` values of the emitted
`tool_calls` entries are exactly `0, 1, 2, …` without gaps — equivalently,
each emitted index equals the number of `functionCall` parts emitted
before it in the stream. -/
theorem stream_tool_call_indices (resps : List GoogleResponse) :
    (chunkToolCalls (runStream initStreamState resps).1).map (fun t => t.index)
      = List.range (chunkToolCalls (runStream initStreamState resps).1).length := by
  have h := (runStream_tool_indices resps initStreamState).1
  rw [h]
  simp [initStreamState, List.range_eq_range']

theorem contentElemParts_no_funcResp (env : JsEnv) (v : JVal) :
    ∀ p ∈ contentElemParts env v, p.functionResponse = none := by
  intro p hp
  simp only [contentElemParts] at hp
  repeat' split at hp
  all_goals simp_all

theorem contentParts_no_funcResp (env : JsEnv) (content : JVal) :
    ∀ p ∈ contentParts env content, p.functionResponse = none := by
  intro p hp
  cases content with
  | str s =>
    simp only [contentParts] at hp
    split at hp <;> simp_all
  | arr elems =>
    simp only [contentParts, List.mem_flatMap] at hp
    obtain ⟨v, _, hv⟩ := hp
    exact contentElemParts_no_funcResp env v p hv
  | undefined => simp [contentParts] at hp
  | null => simp [contentParts] at hp
  | bool b => simp [contentParts] at hp
  | num n => simp [contentParts] at hp
  | obj fs => simp [contentParts] at hp

theorem toolCallPartsAux_no_funcResp (env : JsEnv) (tcs : List OAIToolCall) :
    ∀ b, ∀ p ∈ toolCallPartsAux env b tcs, p.functionResponse = none := by
  induction tcs with
  | nil => intro b p hp; simp [toolCallPartsAux] at hp
  | cons tc rest ih =>
    intro b p hp
    simp only [toolCallPartsAux] at hp
    repeat' split at hp
    all_goals
      first
      | (rcases List.mem_cons.mp hp with h | h
         · subst h; rfl
         · exact ih _ p h)
      | exact ih _ p hp

theorem msgParts_no_funcResp (env : JsEnv) (m : OAIMsg) :
    ∀ p ∈ msgParts env m, p.functionResponse = none := by
  intro p hp
  simp only [msgParts, List.mem_append] at hp
  rcases hp with hp | hp
  · split at hp
    · split at hp
      · exact toolCallPartsAux_no_funcResp env _ false p hp
      · simp at hp
    · simp at hp
  · exact contentParts_no_funcResp env m.content p hp

theorem filter_flushEntry (pending : List GPart)
    (hp : ∀ p ∈ pending, p.functionResponse.isSome = true) :
    (flushEntry pending).filter toolEntryB = flushEntry pending := by
  cases hpe : pending with
  | nil => simp [flushEntry]
  | cons q qs =>
    subst hpe
    simp only [flushEntry, List.isEmpty_cons, if_false, Bool.false_eq_true]
    simp only [List.filter, toolEntryB]
    have : (q :: qs).all (fun p => p.functionResponse.isSome) = true :=
      List.all_eq_true.mpr (fun x hx => hp x hx)
    simp [this]

theorem toolEntry_of_msgParts_false (env : JsEnv) (m : OAIMsg) (role : String)
    (hne : msgParts env m ≠ []) :
    toolEntryB { role := role, parts := msgParts env m } = false := by
  simp only [toolEntryB]
  cases hmp : msgParts env m with
  | nil => exact absurd hmp hne
  | cons q qs =>
    have hq : q.functionResponse = none :=
      msgParts_no_funcResp env m q (by rw [hmp]; simp)
    simp [hq]

theorem runsMerge_nil_pending (env : JsEnv) (msgs : List OAIMsg) :
    runsMerge env [] msgs = (maximalToolRuns msgs).map (mkRunEntry env) := by
  cases msgs with
  | nil => simp [runsMerge, flushEntry, maximalToolRuns]
  | cons m rest =>
    by_cases hm : isToolMsg m
    · simp [runsMerge, hm, maximalToolRuns, mkRunEntry]
    · simp [runsMerge, hm, maximalToolRuns, flushEntry]

theorem runsMerge_shift (env : JsEnv) (pending : List GPart) (m : OAIMsg)
    (rest : List OAIMsg) (hm : isToolMsg m = true) :
    runsMerge env (pending ++ [toolRespPart env m]) rest
      = runsMerge env pending (m :: rest) := by
  cases rest with
  | nil => simp [runsMerge, hm, flushEntry, maximalToolRuns]
  | cons r rest' =>
    by_cases hr : isToolMsg r
    · simp [runsMerge, hm, hr]
    · simp [runsMerge, hm, hr, maximalToolRuns, flushEntry]

theorem convLoop_filter (env : JsEnv) (msgs : List OAIMsg) :
    ∀ pending : List GPart, (∀ p ∈ pending, p.functionResponse.isSome = true) →
      (convLoop env msgs pending).filter toolEntryB = runsMerge env pending msgs := by
  induction msgs with
  | nil =>
    intro pending hp
    simpa [convLoop, runsMerge] using filter_flushEntry pending hp
  | cons m rest ih =>
    intro pending hp
    by_cases hm : isToolMsg m
    · have hstep : convLoop env (m :: rest) pending
          = convLoop env rest (pending ++ [toolRespPart env m]) := by
        unfold isToolMsg at hm
        simp [convLoop, hm]
      rw [hstep]
      rw [ih (pending ++ [toolRespPart env m]) ?_]
      · exact runsMerge_shift env pending m rest hm
      · intro p hpmem
        rcases List.mem_append.mp hpmem with h | h
        · exact hp p h
        · simp only [List.mem_singleton] at h
          subst h
          rfl
    · have hstep : convLoop env (m :: rest) pending
          = flushEntry pending ++
            (if (msgParts env m).isEmpty then []
              else [{ role := if m.role == "assistant" then "model" else "user",
                      parts := msgParts env m }]) ++ convLoop env rest [] := by
        unfold isToolMsg at hm
        simp [convLoop, hm]
      rw [hstep]
      simp only [List.filter_append]
      rw [filter_flushEntry pending hp, ih [] (by simp)]
      have hmid :
          (if (msgParts env m).isEmpty then []
            else [{ role := if m.role == "assistant" then "model" else "user",
                    parts := msgParts env m }]).filter toolEntryB = [] := by
        by_cases he : (msgParts env m).isEmpty
        · simp [he]
        · have hne : msgParts env m ≠ [] := by
            simpa [List.isEmpty_iff] using he
          simp [he, toolEntry_of_msgParts_false env m _ hne]
      rw [hmid]
      have hr : runsMerge env pending (m :: rest)
          = flushEntry pending ++ (maximalToolRuns rest).map (mkRunEntry env) := by
        simp [runsMerge, hm, maximalToolRuns]
      rw [hr, runsMerge_nil_pending]
      simp

/-- C1 (amended): after discarding system messages (which are extracted
into `systemInstruction` before the conversation loop runs), every maximal
run of consecutive `tool` role messages yields exactly one `contents`
entry, whose role is `user` and whose parts are exactly the
`functionResponse` objects of those tool messages in order, and these are
the only entries made of `functionResponse` parts; a non-tool non-system
message between two tool runs forces the buffered run to be flushed as its
own entry, but a system message does not separate two tool runs — they
merge into one entry. -/
theorem translate_tool_runs (env : JsEnv) (messages : List OAIMsg) :
    ((translateOpenAIToGoogle env messages).contents).filter toolEntryB
      = (maximalToolRuns (messages.filter (fun m => m.role != "system"))).map (mkRunEntry env) := by
  unfold translateOpenAIToGoogle
  simp only []
  rw [convLoop_filter env _ [] (by simp), runsMerge_nil_pending]

/-- C1 counterexample: in the message list `[tool, system, tool]` there are
two maximal runs of consecutive `tool` messages, yet the translation
produces a single merged `contents` entry holding both `functionResponse`
parts — the system message between the runs does not force a flush,
refuting the claim read over the original message list. -/
theorem translate_tool_runs_system_gap :
    (translateOpenAIToGoogle trivEnv c1Msgs).contents =
      [ { role := "user",
          parts := [ { functionResponse := some ("a", .obj [("r", .num 1)]) },
                     { functionResponse := some ("b", .obj [("r", .num 2)]) } ] } ] ∧
    (maximalToolRuns c1Msgs).length = 2 := by
  constructor
  · rfl
  · simp [maximalToolRuns, c1Msgs, isToolMsg]

theorem processBody_fake (chunks : List String) (acc : String) :
    processBody "fake" chunks acc =
      (if chunks.foldl (· ++ ·) acc = "" then []
        else [Frame.chunk (chunks.foldl (· ++ ·) acc)]) ++ [Frame.streamClose] := by
  induction chunks generalizing acc with
  | nil => simp [processBody]
  | cons c rest ih =>
    simp only [processBody, List.foldl_cons]
    rw [if_neg (by decide)]
    exact ih (acc ++ c)

/-- C4 counterexample: a request descriptor in `fake` streaming mode that
carries a pre-built `url` skips both fake-mode adjustments — the final URL
still contains `:streamGenerateContent` and `alt=sse` — and an empty
accumulated body produces no `chunk` frame at all, only `stream_close`,
refuting the claim that the rewrite always happens and that a single chunk
frame is always forwarded. -/
theorem constructUrl_fake_url_bypass :
    jsIncludes (constructUrl targetDomainDefault c4Desc) ":streamGenerateContent" = true ∧
    jsIncludes (constructUrl targetDomainDefault c4Desc) "alt=sse" = true ∧
    processBody "fake" [] "" = [Frame.streamClose] := by
  refine ⟨by decide, by decide, by decide⟩

/-- C4 (amended): when a `fake`-mode descriptor carries no pre-built
`url`, the Client Agent builds the path-and-query from `path` and
`query_params`, deleting the `alt` parameter when its value is `sse` (so
no `alt=sse` pair survives, the keys of the descriptor query object being
unique) and replacing the first `:streamGenerateContent` occurrence of the
path by `:generateContent`; the accumulated body is forwarded as a single
`chunk` frame after EOF only when it is nonempty, and a `stream_close`
frame always follows. -/
theorem clientAgent_fake_mode (d : RequestDescriptor) (chunks : List String)
    (hm : d.streaming_mode = some "fake") (hu : truthyStr d.url = false)
    (hnd : (d.query_params.map Prod.fst).Nodup) :
    ("alt", "sse") ∉ fakeAdjustedParams d ∧
    (∀ pre post,
      firstSplit (":streamGenerateContent".data) (d.path.getD "").data = some (pre, post) →
        fakeAdjustedPath d (d.path.getD "") = ⟨pre ++ (":generateContent".data) ++ post⟩) ∧
    initialPathAndQuery d =
      fakeAdjustedPath d (d.path.getD "")
        ++ (if qpToString (fakeAdjustedParams d) ≠ "" then
              "?" ++ qpToString (fakeAdjustedParams d) else "") ∧
    processBody "fake" chunks "" =
      (if chunks.foldl (· ++ ·) "" = "" then []
        else [Frame.chunk (chunks.foldl (· ++ ·) "")]) ++ [Frame.streamClose] := by
  refine ⟨?_, ?_, ?_, processBody_fake chunks ""⟩
  · by_cases hga : qpGet d.query_params "alt" = some "sse"
    · simp only [fakeAdjustedParams, hm, hga]
      simp [qpDeleteAll]
    · simp only [fakeAdjustedParams, hm]
      rw [if_neg (by simp [hga])]
      intro hmem
      apply hga
      have hfind : (d.query_params.find? (fun kv => kv.1 == "alt")).isSome := by
        apply List.find?_isSome.mpr
        exact ⟨("alt", "sse"), hmem, by simp⟩
      obtain ⟨kv, hkv⟩ := Option.isSome_iff_exists.mp hfind
      have hkvmem : kv ∈ d.query_params := List.mem_of_find?_eq_some hkv
      have hkvkey : kv.1 = "alt" := by
        have := List.find?_some hkv
        simpa using this
      have hinj := List.inj_on_of_nodup_map hnd
      have : kv = ("alt", "sse") := by
        apply hinj hkvmem hmem
        simp [hkvkey]
      simp [qpGet, hkv, this]
  · intro pre post hsplit
    simp only [fakeAdjustedPath, hm, jsIncludes, hsplit]
    simp only [replaceFirst, hsplit]
    simp
  · simp only [initialPathAndQuery, hu]
    simp

theorem clientAgent_fake_mode_witness :
    ("alt", "sse") ∉ fakeAdjustedParams c4WDesc ∧
    fakeAdjustedPath c4WDesc "/v1beta/models/m:streamGenerateContent"
      = "/v1beta/models/m:generateContent" ∧
    initialPathAndQuery c4WDesc = "/v1beta/models/m:generateContent?key=k" ∧
    processBody "fake" ["ab", "cd"] "" = [Frame.chunk "abcd", Frame.streamClose] := by
  have h := clientAgent_fake_mode c4WDesc ["ab", "cd"] rfl rfl (by decide)
  refine ⟨h.1, ?_, ?_, ?_⟩
  · have h2 := h.2.1 ("/v1beta/models/m".data) [] (by decide)
    exact h2.trans (by decide)
  · exact h.2.2.1.trans (by decide)
  · exact h.2.2.2.trans (by decide)

end AIStudioToAPI
